import Mathlib

/-!
# Verification of the `midware` serial step-execution engine

This file is a shallow embedding of the executable core of the `midware`
middleware framework (`src/midware.ts`, `src/utils/with-timeout.ts`):
the step registry, the cached priority sorter, and the sequential execution
engine with its timeout race.

Modelling conventions:

* A registered middleware function is modelled by the structure `MidwareFn`.
  Since all steps of one run receive the same (fixed) argument tuple, a step's
  behaviour during a run is captured by the value it settles with, `run`:
  `none` models the JavaScript `undefined` (the "empty marker", continue),
  `some v` models any other value (termination signal).  Steps are modelled as
  settling normally; thrown step errors are outside the modelled fragment.
* JavaScript compares functions by object reference (`includes`, `indexOf`).
  Reference identity is modelled by the `ref : Nat` field.  Allocating a new
  closure (as `withTimeout` does) yields a reference distinct from every
  function in sight; this freshness is modelled by `freshRef`, which picks a
  number larger than the wrapped function's `ref` and every `ref` in the
  registry.
* Real durations are modelled by a `dur : Nat` field per step; a sequential
  run settles after the sum of the durations of the steps it invoked.  The
  `Promise.race` of `withTimeout` is modelled by comparing that settle time
  with the timeout: the run's outcome wins when it settles strictly before
  the timer, the timer wins when it fires strictly first.  A tie (settling in
  exactly the same tick) is not specified by the source (it depends on the
  event-loop interleaving); the model resolves ties in favour of the timer,
  and no theorem below relies on the tie case.
* Numeric timeout arguments are `Int` (the source checks `timeout > 0`);
  priority hints `__midwarePreExecuteSortOrder?: number` are modelled as
  `Option Int` (absent hint = `none`), restricted to finite values.
-/

/-- One registered middleware function (`MidwareUseFn` in the source), with the
attached optional properties the engine reads, plus the modelled behaviour:
`ref` is the object reference identity, `run` the value the step settles with
when invoked (`none` = `undefined`), `dur` its settle duration. -/
structure MidwareFn (V : Type) where
  ref : Nat
  __midwarePreExecuteSortOrder : Option Int := none
  __midwareDuplicable : Bool := false
  run : Option V := none
  dur : Nat := 0
deriving DecidableEq, Repr

/-- Configuration options of `Midware` (interface `MidwareOptions`); in the
instance's own `options` field both flags are always present (the constructor
merges the caller's record over the defaults), so they are plain `Bool`s. -/
structure MidwareOptions where
  preExecuteSortEnabled : Bool := false
  duplicatesCheckEnabled : Bool := false
deriving DecidableEq, Repr

/-- The registration state of one `Midware` instance: the internal stack
`#midwares`, the sort cache `#sortedMidwares`, the dirty flag `#isDirty`, and
the `options` record (field values only; the object-identity aspects of
`options` are treated separately in the `OptionsObject` model below). -/
structure Midware (V : Type) where
  midwares : List (MidwareFn V) := []
  sortedMidwares : Option (List (MidwareFn V)) := none
  isDirty : Bool := true
  options : MidwareOptions := {}
deriving DecidableEq, Repr

/-- Errors the engine can raise: `TypeError` for a non-callable registration
argument, the duplicate-registration `Error`, and `TimeoutError`. -/
inductive MidwareErr where
  | invalidStep
  | duplicateStep
  | timeout
deriving DecidableEq, Repr

/-- A registration argument as seen by `use`/`unshift`: either an actual
function value or some non-callable value (`typeof midware !== "function"`). -/
inductive MidwareArg (V : Type) where
  | fn (m : MidwareFn V)
  | nonCallable
deriving DecidableEq, Repr

/-- The comparator of `#getExecutableMiddlewares`, as a boolean "less or
equal" on priority hints: `(a.__midwarePreExecuteSortOrder ?? Infinity) -
(b.__midwarePreExecuteSortOrder ?? Infinity) <= 0`.  An absent hint behaves
as positive infinity, so it is `≤` nothing finite and everything is `≤` it
(two absent hints compare equal, as the comparator's `Infinity - Infinity`
is treated as `0` by `Array.prototype.sort`). -/
def sortOrderLe : Option Int → Option Int → Bool
  | _, none => true
  | none, some _ => false
  | some a, some b => decide (a ≤ b)

/-- The sort comparator lifted to middleware functions, as a relation. -/
def preExecuteSortRel {V : Type} (a b : MidwareFn V) : Prop :=
  sortOrderLe a.__midwarePreExecuteSortOrder b.__midwarePreExecuteSortOrder = true

instance {V : Type} : DecidableRel (preExecuteSortRel (V := V)) :=
  fun a b => decidable_of_iff (sortOrderLe a.__midwarePreExecuteSortOrder
    b.__midwarePreExecuteSortOrder = true) Iff.rfl

theorem sortOrderLe_total (x y : Option Int) :
    sortOrderLe x y = true ∨ sortOrderLe y x = true := by
  cases x <;> cases y <;> simp [sortOrderLe] <;> omega

theorem sortOrderLe_trans {x y z : Option Int} (h1 : sortOrderLe x y = true)
    (h2 : sortOrderLe y z = true) : sortOrderLe x z = true := by
  cases x <;> cases y <;> cases z <;> simp_all [sortOrderLe] <;> omega

instance {V : Type} : IsTotal (MidwareFn V) preExecuteSortRel :=
  ⟨fun a b => sortOrderLe_total _ _⟩

instance {V : Type} : IsTrans (MidwareFn V) preExecuteSortRel :=
  ⟨fun _ _ _ => sortOrderLe_trans⟩

/-- `Array.prototype.sort` with the priority comparator: since ES2019 the sort
is required to be stable, and a stable sort consistent with a total preorder
is unique, so it is modelled by insertion sort with the `≤` comparator. -/
def sortMidwares {V : Type} (l : List (MidwareFn V)) : List (MidwareFn V) :=
  List.insertionSort preExecuteSortRel l

namespace Midware

variable {V : Type}

/-- `#assertValidMidware`: a non-callable registration argument throws a
`TypeError` before anything else happens. -/
def assertValidMidware (a : MidwareArg V) : Except MidwareErr (MidwareFn V) :=
  match a with
  | .fn m => .ok m
  | .nonCallable => .error .invalidStep

/-- A reference distinct from `m.ref` and from every reference in `l`: models
the fact that the closure created by `withTimeout` is a new object, different
from the wrapped function and from everything already registered. -/
def freshRef (m : MidwareFn V) (l : List (MidwareFn V)) : Nat :=
  (l.map MidwareFn.ref).foldr max m.ref + 1

/-- `#maybeWithTimeout`: with a positive `timeout` the middleware is replaced
by the `withTimeout` wrapper — a new function (fresh reference) carrying none
of the original's attached properties; it delegates to the original, so it
settles with the same value and duration (per-step timeout breach is outside
the modelled fragment, see the file header).  With `timeout ≤ 0` the original
is returned unchanged.  The extra `l` argument (the current registry) only
feeds the freshness of the allocated reference. -/
def maybeWithTimeout (l : List (MidwareFn V)) (m : MidwareFn V) (timeout : Int) :
    MidwareFn V :=
  if 0 < timeout then
    { ref := freshRef m l
      __midwarePreExecuteSortOrder := none
      __midwareDuplicable := false
      run := m.run
      dur := m.dur }
  else m

/-- `#maybeDupesAssert`: duplicate-rejection check by reference, skipped for
`__midwareDuplicable` functions and when the option is disabled. -/
def maybeDupesAssert (s : Midware V) (m : MidwareFn V) :
    Except MidwareErr (MidwareFn V) :=
  if m.__midwareDuplicable || !s.options.duplicatesCheckEnabled then
    .ok m
  else if s.midwares.any (fun x => x.ref == m.ref) then
    .error .duplicateStep
  else
    .ok m

/-- `#markDirty`: invalidates the sorted cache. -/
def markDirty (s : Midware V) : Midware V :=
  { s with isDirty := true, sortedMidwares := none }

/-- `use`: validate, maybe wrap with a timeout, maybe assert no duplicate,
push to the end of the stack, mark the cache dirty.  An error is raised
before the push, leaving the state unchanged (`Except.error`). -/
def use (s : Midware V) (a : MidwareArg V) (timeout : Int) :
    Except MidwareErr (Midware V) := do
  let m ← assertValidMidware a
  let m ← maybeDupesAssert s (maybeWithTimeout s.midwares m timeout)
  return markDirty { s with midwares := s.midwares ++ [m] }

/-- `unshift`: like `use` but inserts at the start of the stack. -/
def unshift (s : Midware V) (a : MidwareArg V) (timeout : Int) :
    Except MidwareErr (Midware V) := do
  let m ← assertValidMidware a
  let m ← maybeDupesAssert s (maybeWithTimeout s.midwares m timeout)
  return markDirty { s with midwares := m :: s.midwares }

/-- The instance state after a `use` call whether or not it threw: a thrown
registration error leaves the instance as it was. -/
def useCaught (s : Midware V) (a : MidwareArg V) (timeout : Int) : Midware V :=
  match use s a timeout with
  | .ok s' => s'
  | .error _ => s

/-- Likewise for `unshift`. -/
def unshiftCaught (s : Midware V) (a : MidwareArg V) (timeout : Int) : Midware V :=
  match unshift s a timeout with
  | .ok s' => s'
  | .error _ => s

/-- `remove`: `indexOf` by reference then `splice(index, 1)`; returns whether
a removal occurred, and marks the cache dirty only if it did. -/
def remove (s : Midware V) (m : MidwareFn V) : Bool × Midware V :=
  match s.midwares.findIdx? (fun x => x.ref == m.ref) with
  | some i => (true, markDirty { s with midwares := s.midwares.eraseIdx i })
  | none => (false, s)

/-- `clear`: empties the stack and marks the cache dirty. -/
def clear (s : Midware V) : Midware V :=
  markDirty { s with midwares := [] }

/-- `#getExecutableMiddlewares`: the raw stack when sorting is disabled;
otherwise the cached sorted array when clean, else a freshly sorted copy,
which is cached (the returned state records the cache update). -/
def getExecutableMiddlewares (s : Midware V) : List (MidwareFn V) × Midware V :=
  if !s.options.preExecuteSortEnabled then
    (s.midwares, s)
  else if !s.isDirty && s.sortedMidwares.isSome then
    (s.sortedMidwares.getD [], s)
  else
    let sorted := sortMidwares s.midwares
    (sorted, { s with sortedMidwares := some sorted, isDirty := false })

/-- The `_exec` loop of `execute`: await each step in series; a step settling
with anything other than `undefined` terminates the loop with that value.
Returns the outcome together with the steps actually invoked, in invocation
order. -/
def execLoop : List (MidwareFn V) → Option V × List (MidwareFn V)
  | [] => (none, [])
  | m :: rest =>
    match m.run with
    | some v => (some v, [m])
    | none =>
      let p := execLoop rest
      (p.1, m :: p.2)

/-- When the sequential run over `l` settles: the sum of the durations of the
steps it invoked. -/
def execDuration (l : List (MidwareFn V)) : Nat :=
  (((execLoop l).2).map MidwareFn.dur).sum

/-- `execute`: select the step sequence once (`#getExecutableMiddlewares`),
run the `_exec` loop, and — when a positive whole-run `timeout` was given —
race it against the timer (`withTimeout`): the loop's outcome stands when it
settles strictly before the timer, `TimeoutError` when the timer fires
strictly first (ties: see the file header).  Returns the settled outcome, the
invoked steps in order, and the instance state after the call. -/
def execute (s : Midware V) (timeout : Int) :
    Except MidwareErr (Option V) × List (MidwareFn V) × Midware V :=
  let sel := getExecutableMiddlewares s
  let p := execLoop sel.1
  let outcome : Except MidwareErr (Option V) :=
    if 0 < timeout then
      if (execDuration sel.1 : Int) < timeout then .ok p.1 else .error .timeout
    else
      .ok p.1
  (outcome, p.2, sel.2)

/-- A fresh instance before the constructor's initial-list registration:
empty stack, empty cache, dirty flag set, given (already merged) options. -/
def initState (opts : MidwareOptions) : Midware V :=
  { midwares := [], sortedMidwares := none, isDirty := true, options := opts }

/-- The constructor: `midwares.forEach((fn) => this.use(fn))` over the initial
list (no per-step timeouts), starting from a fresh instance; the first
registration error propagates out of the constructor. -/
def construct (inits : List (MidwareArg V)) (opts : MidwareOptions) :
    Except MidwareErr (Midware V) :=
  inits.foldlM (fun s a => use s a 0) (initState opts)

end Midware

/-!
## Object-level model of array aliasing

`#getExecutableMiddlewares` returns the `#midwares` array **itself** when
sorting is disabled, and `execute`'s `for ... of` loop iterates that array
object; registry mutations (`push`, `unshift`, `splice`) mutate it in place,
while `clear` rebinds `#midwares` to a new array and a sort recomputation
allocates a new copy.  To reason about what an in-flight run observes, this
namespace models array objects explicitly: a heap of arrays addressed by id,
the registry holding the id of its current backing array, and a run holding
the id of the array it iterates together with the `for ... of` iterator index
(the ECMAScript array iterator re-reads the array's current length and
element at each `next()` call). -/

namespace HeapModel

variable {V : Type}

/-- The heap-level state of one `Midware` instance: `heap` maps array ids to
their current contents, `regId` is the id of the `#midwares` array,
`sortedId` the id of the cached `#sortedMidwares` array (if any). -/
structure Sys (V : Type) where
  heap : List (List (MidwareFn V))
  regId : Nat
  sortedId : Option Nat := none
  isDirty : Bool := true
  options : MidwareOptions := {}
deriving DecidableEq, Repr

/-- Contents of the array object with id `i`. -/
def arr (s : Sys V) (i : Nat) : List (MidwareFn V) :=
  s.heap.getD i []

/-- Contents of the registry's current backing array. -/
def regArr (s : Sys V) : List (MidwareFn V) :=
  arr s s.regId

/-- `#markDirty` at the heap level. -/
def dirty (s : Sys V) : Sys V :=
  { s with isDirty := true, sortedId := none }

/-- The registry mutations of the public interface. -/
inductive MutOp (V : Type) where
  | useM (m : MidwareFn V) (timeout : Int)
  | unshiftM (m : MidwareFn V) (timeout : Int)
  | removeM (m : MidwareFn V)
  | clearM
deriving DecidableEq, Repr

/-- Heap-level `use`: `push` mutates the registry's array in place (a failed
duplicate assertion mutates nothing). -/
def useMut (s : Sys V) (m : MidwareFn V) (timeout : Int) : Sys V :=
  if !(Midware.maybeWithTimeout (regArr s) m timeout).__midwareDuplicable
      && s.options.duplicatesCheckEnabled
      && (regArr s).any
        (fun x => x.ref == (Midware.maybeWithTimeout (regArr s) m timeout).ref)
  then
    s
  else
    dirty { s with heap := (s.heap.set s.regId
      (regArr s ++ [Midware.maybeWithTimeout (regArr s) m timeout])) }

/-- Heap-level `unshift`: in-place prepend. -/
def unshiftMut (s : Sys V) (m : MidwareFn V) (timeout : Int) : Sys V :=
  if !(Midware.maybeWithTimeout (regArr s) m timeout).__midwareDuplicable
      && s.options.duplicatesCheckEnabled
      && (regArr s).any
        (fun x => x.ref == (Midware.maybeWithTimeout (regArr s) m timeout).ref)
  then
    s
  else
    dirty { s with heap := (s.heap.set s.regId
      (Midware.maybeWithTimeout (regArr s) m timeout :: regArr s)) }

/-- Heap-level `remove`: in-place `splice` of the first entry with the given
reference. -/
def removeMut (s : Sys V) (m : MidwareFn V) : Sys V :=
  match (regArr s).findIdx? (fun x => x.ref == m.ref) with
  | some i => dirty { s with heap := s.heap.set s.regId ((regArr s).eraseIdx i) }
  | none => s

/-- Heap-level `clear`: `#midwares = []` rebinds the registry to a freshly
allocated empty array; the old array object is untouched. -/
def clearMut (s : Sys V) : Sys V :=
  dirty { s with heap := s.heap ++ [[]], regId := s.heap.length }

def applyMut (s : Sys V) : MutOp V → Sys V
  | .useM m t => useMut s m t
  | .unshiftM m t => unshiftMut s m t
  | .removeM m => removeMut s m
  | .clearM => clearMut s

/-- Heap-level `#getExecutableMiddlewares`: returns the id of the array the
caller will iterate — the live registry array when sorting is disabled, the
cached sorted array on a cache hit, else a freshly allocated sorted copy
(`[...this.#midwares].sort(...)`), which becomes the new cache. -/
def getExecId (s : Sys V) : Nat × Sys V :=
  if !s.options.preExecuteSortEnabled then
    (s.regId, s)
  else if !s.isDirty && s.sortedId.isSome then
    (s.sortedId.getD 0, s)
  else
    (s.heap.length,
      { s with heap := s.heap ++ [sortMidwares (regArr s)],
               sortedId := some s.heap.length, isDirty := false })

/-- An in-flight `execute` run: the id of the array selected at the start of
the run, the `for ... of` iterator index, the references invoked so far, and
the settled outcome once the loop has finished or a step terminated it. -/
structure RunSt (V : Type) where
  arrId : Nat
  idx : Nat := 0
  invoked : List Nat := []
  settled : Option (Option V) := none
deriving DecidableEq, Repr

/-- Starting a run: the step sequence is selected exactly once. -/
def startRun (s : Sys V) : RunSt V × Sys V :=
  let p := getExecId s
  ({ arrId := p.1 }, p.2)

/-- One iteration of the `for ... of` loop: the iterator re-reads the array's
current contents; past the end the loop falls through and the run settles
with the empty marker, otherwise the next step is invoked and a non-empty
settled value terminates the run with that value. -/
def runStep (s : Sys V) (r : RunSt V) : RunSt V :=
  if r.settled.isSome then r
  else
    match (arr s r.arrId)[r.idx]? with
    | none => { r with settled := some none }
    | some m =>
      match m.run with
      | some v =>
        { r with idx := r.idx + 1, invoked := r.invoked ++ [m.ref],
                 settled := some (some v) }
      | none =>
        { r with idx := r.idx + 1, invoked := r.invoked ++ [m.ref] }

/-- One item of an interleaving: either a registry mutation performed while
the run is suspended at an `await`, or the run's next loop iteration. -/
inductive SchedItem (V : Type) where
  | mut (op : MutOp V)
  | step
deriving DecidableEq, Repr

def SchedItem.isStep : SchedItem V → Bool
  | .step => true
  | .mut _ => false

/-- Runs an interleaving of registry mutations and run iterations. -/
def runSched : List (SchedItem V) → Sys V → RunSt V → Sys V × RunSt V
  | [], s, r => (s, r)
  | .mut op :: rest, s, r => runSched rest (applyMut s op) r
  | .step :: rest, s, r => runSched rest s (runStep s r)

/-- Well-formedness of a heap state: the registry's array id is allocated,
and the cached sorted array (if any) is an allocated array object distinct
from the registry's. -/
def WF (s : Sys V) : Prop :=
  s.regId < s.heap.length ∧
    ∀ i, s.sortedId = some i → i < s.heap.length ∧ i ≠ s.regId

/-- What an in-flight run needs of the heap: its selected array is allocated
and is not the registry's live array. -/
def WFrun (s : Sys V) (r : RunSt V) : Prop :=
  r.arrId < s.heap.length ∧ r.arrId ≠ s.regId

end HeapModel

/-!
## Object-level model of the options record

The constructor runs `this.options = { ...this.options, ...(options || {}) }`:
the caller's record is spread into a **fresh** object, field by field, over
the defaults.  The flags are then re-read from `this.options` on each
registration (`#maybeDupesAssert`) and each run (`#getExecutableMiddlewares`).
To reason about mutation of the caller's record after construction, options
records are modelled as heap objects addressed by id. -/

namespace OptionsObject

/-- A caller-side options record: a JS object in which each of the two
recognised fields may be absent. -/
structure OptRec where
  preExecuteSortEnabled : Option Bool := none
  duplicatesCheckEnabled : Option Bool := none
deriving DecidableEq, Repr

/-- `{ ...defaults, ...(options || {}) }`: fields present in the caller's
record override the defaults (`false`/`false`); the result has both fields
present. -/
def merge (o : OptRec) : OptRec :=
  { preExecuteSortEnabled := some (o.preExecuteSortEnabled.getD false)
    duplicatesCheckEnabled := some (o.duplicatesCheckEnabled.getD false) }

/-- The constructor's options assignment: reads the caller's record (id
`cid`), allocates a fresh object holding the merged fields, and returns the
new heap together with the id the instance's `options` field now holds. -/
def constructOptions (h : List OptRec) (cid : Nat) : List OptRec × Nat :=
  (h ++ [merge (h.getD cid {})], h.length)

/-- Reading `this.options.preExecuteSortEnabled` /
`...duplicatesCheckEnabled` at some later call: an absent field reads as
`undefined`, which is falsy. -/
def readFlags (h : List OptRec) (oid : Nat) : MidwareOptions :=
  let p := h.getD oid {}
  { preExecuteSortEnabled := p.preExecuteSortEnabled.getD false
    duplicatesCheckEnabled := p.duplicatesCheckEnabled.getD false }

end OptionsObject

/-! ## Execution-loop lemmas -/

theorem execLoop_all_none {V : Type} {l : List (MidwareFn V)}
    (h : ∀ m ∈ l, m.run = none) : Midware.execLoop l = (none, l) := by
  induction l with
  | nil => rfl
  | cons x rest ih =>
    have hx : x.run = none := h x (List.mem_cons_self x rest)
    simp [Midware.execLoop, hx, ih (fun m hm => h m (List.mem_cons_of_mem _ hm))]

theorem execLoop_first_hit {V : Type} :
    ∀ (l : List (MidwareFn V)) (k : Nat) (m : MidwareFn V),
      l[k]? = some m → m.run.isSome = true →
      (∀ j, j < k → ∀ mj, l[j]? = some mj → mj.run = none) →
      Midware.execLoop l = (m.run, l.take (k + 1))
  | [], k, m, hk, _, _ => by simp at hk
  | x :: rest, 0, m, hk, hsome, _ => by
    simp only [List.getElem?_cons_zero, Option.some.injEq] at hk
    subst hk
    obtain ⟨v, hv⟩ := Option.isSome_iff_exists.mp hsome
    simp [Midware.execLoop, hv]
  | x :: rest, k + 1, m, hk, hsome, hmin => by
    have hx : x.run = none := hmin 0 (Nat.succ_pos k) x (by simp)
    have hrest := execLoop_first_hit rest k m (by simpa using hk) hsome
      (fun j hj mj hjm => hmin (j + 1) (Nat.succ_lt_succ hj) mj (by simpa using hjm))
    simp [Midware.execLoop, hx, hrest]

/-! ## C1: strict in-order execution, first termination wins -/

/-- **C1**: with no whole-run timeout, `execute` invokes the selected steps
strictly in order, each at most once: if every step settles with the empty
marker (including the empty sequence) the outcome is the empty marker and the
invoked steps are exactly the whole selected sequence in order; if step `k`
is the first one settling with a non-empty value, the outcome is exactly that
value and the invoked steps are exactly the first `k + 1` selected steps in
order (steps after `k` are never invoked). -/
theorem execute_first_termination {V : Type} (s : Midware V) :
    ((∀ m ∈ (Midware.getExecutableMiddlewares s).1, m.run = none) →
        (Midware.execute s 0).1 = .ok none ∧
        (Midware.execute s 0).2.1 = (Midware.getExecutableMiddlewares s).1) ∧
    (∀ k m, (Midware.getExecutableMiddlewares s).1[k]? = some m →
        m.run.isSome = true →
        (∀ j, j < k → ∀ mj,
          (Midware.getExecutableMiddlewares s).1[j]? = some mj → mj.run = none) →
        (Midware.execute s 0).1 = .ok m.run ∧
        (Midware.execute s 0).2.1 =
          (Midware.getExecutableMiddlewares s).1.take (k + 1)) := by
  constructor
  · intro h
    have hl := execLoop_all_none h
    simp [Midware.execute, hl]
  · intro k m hk hs hmin
    have hl := execLoop_first_hit _ k m hk hs hmin
    simp [Midware.execute, hl]

/-- Concrete instantiation of `execute_first_termination`: two steps, the
second terminating with value `7`; the run resolves to `7` having invoked
exactly the first two steps. -/
theorem execute_first_termination_witness :
    (Midware.execute
        ({ midwares := [{ ref := 0 }, { ref := 1, run := some 7 }, { ref := 2 }] }
          : Midware Nat) 0).1 = .ok (some 7) ∧
    (Midware.execute
        ({ midwares := [{ ref := 0 }, { ref := 1, run := some 7 }, { ref := 2 }] }
          : Midware Nat) 0).2.1 =
      [{ ref := 0 }, { ref := 1, run := some 7 }] := by
  have h := (execute_first_termination
    ({ midwares := [{ ref := 0 }, { ref := 1, run := some 7 }, { ref := 2 }] }
      : Midware Nat)).2 1 { ref := 1, run := some 7 } rfl rfl
    (by
      intro j hj mj hm
      have hj0 : j = 0 := Nat.lt_one_iff.mp hj
      subst hj0
      have hm' : some ({ ref := 0 } : MidwareFn Nat) = some mj := hm
      cases hm'
      rfl)
  exact ⟨h.1, h.2⟩

/-! ## C9: execute does not mutate the registration state -/

theorem getExec_snd_fields {V : Type} (s : Midware V) :
    ((Midware.getExecutableMiddlewares s).2).midwares = s.midwares ∧
    ((Midware.getExecutableMiddlewares s).2).options = s.options := by
  unfold Midware.getExecutableMiddlewares
  split_ifs <;> simp

theorem getExec_fst_idem {V : Type} (s : Midware V) :
    (Midware.getExecutableMiddlewares (Midware.getExecutableMiddlewares s).2).1 =
      (Midware.getExecutableMiddlewares s).1 := by
  unfold Midware.getExecutableMiddlewares
  split_ifs with h1 h2 <;> simp_all

/-- **C9**: an `execute` call never mutates the registration state — the
instance after the call holds exactly the same step references in the same
order and the same options (only the derived sort cache may change), and a
repeated run without interleaved mutation invokes exactly the same step
sequence. -/
theorem execute_preserves_registration {V : Type} (s : Midware V) (d : Int) :
    ((Midware.execute s d).2.2).midwares = s.midwares ∧
    ((Midware.execute s d).2.2).options = s.options ∧
    (Midware.execute ((Midware.execute s d).2.2) d).2.1 =
      (Midware.execute s d).2.1 := by
  refine ⟨(getExec_snd_fields s).1, (getExec_snd_fields s).2, ?_⟩
  show (Midware.execLoop (Midware.getExecutableMiddlewares
      (Midware.getExecutableMiddlewares s).2).1).2 =
    (Midware.execLoop (Midware.getExecutableMiddlewares s).1).2
  rw [getExec_fst_idem]

/-! ## C5: the whole-run timeout race -/

/-- **C5**: a positive whole-run timeout `d` races the entire sequential run
against the timer: without a timeout the run settles with the loop's outcome;
when the run settles strictly before `d` the whole call, including its
outcome and invoked steps, is identical to the untimed call; when `d` elapses
strictly first the call fails with `TimeoutError`; and with `d ≤ 0` no
timeout is enforced (the call is identical to the untimed call, so it cannot
fail with a whole-run `TimeoutError`). -/
theorem execute_whole_run_timeout {V : Type} (s : Midware V) (d : Int) :
    (Midware.execute s 0).1 =
        .ok (Midware.execLoop (Midware.getExecutableMiddlewares s).1).1 ∧
    (d ≤ 0 → Midware.execute s d = Midware.execute s 0) ∧
    (0 < d →
      (Midware.execDuration (Midware.getExecutableMiddlewares s).1 : Int) < d →
        Midware.execute s d = Midware.execute s 0) ∧
    (0 < d →
      d < (Midware.execDuration (Midware.getExecutableMiddlewares s).1 : Int) →
        (Midware.execute s d).1 = .error .timeout) := by
  refine ⟨?_, fun hd => ?_, fun hd ht => ?_, fun hd ht => ?_⟩ <;>
    simp only [Midware.execute]
  · rw [if_neg (by omega)]
  · rw [if_neg (by omega), if_neg (by omega)]
  · rw [if_pos hd, if_pos ht, if_neg (by omega)]
  · rw [if_pos hd, if_neg (by omega)]

/-- Concrete instantiation of `execute_whole_run_timeout`: one step taking 40
time units; a whole-run timeout of 20 fails with `TimeoutError`, while a
timeout of 100 leaves the run identical to the untimed one. -/
theorem execute_whole_run_timeout_witness :
    (Midware.execute ({ midwares := [{ ref := 0, dur := 40 }] } : Midware Nat)
        20).1 = .error .timeout ∧
    Midware.execute ({ midwares := [{ ref := 0, dur := 40 }] } : Midware Nat) 100 =
      Midware.execute ({ midwares := [{ ref := 0, dur := 40 }] } : Midware Nat) 0 := by
  constructor
  · exact (execute_whole_run_timeout
      ({ midwares := [{ ref := 0, dur := 40 }] } : Midware Nat) 20).2.2.2
      (by omega) (by decide)
  · exact (execute_whole_run_timeout
      ({ midwares := [{ ref := 0, dur := 40 }] } : Midware Nat) 100).2.2.1
      (by omega) (by decide)

/-! ## C3: stable ascending priority sort, absent hints last -/

theorem sortOrderLe_refl (x : Option Int) : sortOrderLe x x = true := by
  cases x <;> simp [sortOrderLe]

/-- Stability of the priority sort: for every priority value (including the
absent hint), the steps carrying that value appear in the sorted view in
exactly their registry (insertion) order. -/
theorem sortMidwares_stable {V : Type} (l : List (MidwareFn V)) (o : Option Int) :
    (sortMidwares l).filter (fun m => m.__midwarePreExecuteSortOrder == o) =
      l.filter (fun m => m.__midwarePreExecuteSortOrder == o) := by
  set p : MidwareFn V → Bool := fun m => m.__midwarePreExecuteSortOrder == o with hp
  have hpair : (l.filter p).Pairwise preExecuteSortRel := by
    refine List.pairwise_of_forall_mem_list ?_
    intro a ha b hb
    have ha' : a.__midwarePreExecuteSortOrder = o := by
      simpa [hp] using (List.mem_filter.mp ha).2
    have hb' : b.__midwarePreExecuteSortOrder = o := by
      simpa [hp] using (List.mem_filter.mp hb).2
    show sortOrderLe _ _ = true
    rw [ha', hb']
    exact sortOrderLe_refl o
  have hsub : List.Sublist (l.filter p) (sortMidwares l) :=
    List.sublist_insertionSort hpair (List.filter_sublist l)
  have hsub2 : List.Sublist (l.filter p) ((sortMidwares l).filter p) := by
    have h := hsub.filter p
    rwa [List.filter_eq_self.mpr (fun a ha => (List.mem_filter.mp ha).2)] at h
  have hperm : List.Perm ((sortMidwares l).filter p) (l.filter p) :=
    (List.perm_insertionSort preExecuteSortRel l).filter p
  exact (hsub2.eq_of_length hperm.length_eq.symm).symm

/-- **C3**: with priority sorting enabled (and a coherent sort cache), the
selected execution order is exactly the priority sort of the registry: a
permutation of the registry, sorted ascending by priority hint with an absent
hint behaving as positive infinity (so every hint-less step sorts after every
hinted one), and stable — steps with equal hints (and the hint-less steps
among themselves) keep their registry insertion order. -/
theorem sorted_execution_order {V : Type} (s : Midware V)
    (hinv : s.isDirty = false →
      s.sortedMidwares = some (sortMidwares s.midwares))
    (hsort : s.options.preExecuteSortEnabled = true) :
    (Midware.getExecutableMiddlewares s).1 = sortMidwares s.midwares ∧
    (sortMidwares s.midwares).Perm s.midwares ∧
    List.Sorted preExecuteSortRel (sortMidwares s.midwares) ∧
    (∀ o : Option Int,
      (sortMidwares s.midwares).filter
          (fun m => m.__midwarePreExecuteSortOrder == o) =
        s.midwares.filter (fun m => m.__midwarePreExecuteSortOrder == o)) := by
  refine ⟨?_, List.perm_insertionSort _ _, List.sorted_insertionSort _ _,
    fun o => sortMidwares_stable s.midwares o⟩
  unfold Midware.getExecutableMiddlewares
  split_ifs with h1 h2
  · simp [hsort] at h1
  · have hd : s.isDirty = false := by
      cases hs : s.isDirty
      · rfl
      · simp [hs] at h2
    rw [hinv hd]
    rfl
  · rfl

/-- Concrete instantiation of `sorted_execution_order`: priorities
`[10, 1, 5]` on registration order `[A, B, C]` (references `0, 1, 2`) execute
as `B, C, A`; and hint-less steps (references `3, 4`) run after all hinted
ones, keeping their own registration order. -/
theorem sorted_execution_order_witness :
    ((Midware.getExecutableMiddlewares
        ({ midwares :=
            [{ ref := 0, __midwarePreExecuteSortOrder := some 10 },
             { ref := 1, __midwarePreExecuteSortOrder := some 1 },
             { ref := 2, __midwarePreExecuteSortOrder := some 5 }],
           options := { preExecuteSortEnabled := true } } : Midware Nat)).1).map
      MidwareFn.ref = [1, 2, 0] ∧
    ((Midware.getExecutableMiddlewares
        ({ midwares :=
            [{ ref := 3 },
             { ref := 0, __midwarePreExecuteSortOrder := some 10 },
             { ref := 4 },
             { ref := 1, __midwarePreExecuteSortOrder := some 1 }],
           options := { preExecuteSortEnabled := true } } : Midware Nat)).1).map
      MidwareFn.ref = [1, 0, 3, 4] := by
  constructor
  · have h := (sorted_execution_order
      ({ midwares :=
          [{ ref := 0, __midwarePreExecuteSortOrder := some 10 },
           { ref := 1, __midwarePreExecuteSortOrder := some 1 },
           { ref := 2, __midwarePreExecuteSortOrder := some 5 }],
         options := { preExecuteSortEnabled := true } } : Midware Nat)
      (by decide) rfl).1
    rw [h]
    decide
  · have h := (sorted_execution_order
      ({ midwares :=
          [{ ref := 3 },
           { ref := 0, __midwarePreExecuteSortOrder := some 10 },
           { ref := 4 },
           { ref := 1, __midwarePreExecuteSortOrder := some 1 }],
         options := { preExecuteSortEnabled := true } } : Midware Nat)
      (by decide) rfl).1
    rw [h]
    decide

/-! ## C4: the sort cache is never read while invalid -/

namespace Midware

/-- The public operations on one instance, as state transformers (a throwing
registration leaves the instance unchanged). -/
inductive Op (V : Type) where
  | opUse (a : MidwareArg V) (timeout : Int)
  | opUnshift (a : MidwareArg V) (timeout : Int)
  | opRemove (m : MidwareFn V)
  | opClear
  | opExecute (timeout : Int)
deriving DecidableEq, Repr

def applyOp (s : Midware V) : Op V → Midware V
  | .opUse a t => useCaught s a t
  | .opUnshift a t => unshiftCaught s a t
  | .opRemove m => (remove s m).2
  | .opClear => clear s
  | .opExecute d => (execute s d).2.2

/-- The instance states reachable through the public interface: constructed
fresh, then any sequence of operations; the `options` field is public and may
be reassigned at any time. -/
inductive Reachable : Midware V → Prop where
  | init (opts : MidwareOptions) : Reachable (initState opts)
  | step (s : Midware V) (op : Op V) : Reachable s → Reachable (applyOp s op)
  | setOptions (s : Midware V) (opts : MidwareOptions) :
      Reachable s → Reachable { s with options := opts }

/-- Coherence of the sort cache: whenever the dirty flag is clear, the cached
array is exactly the priority sort of the current registry. -/
def SortCacheInv (s : Midware V) : Prop :=
  s.isDirty = false → s.sortedMidwares = some (sortMidwares s.midwares)

end Midware

theorem use_ok_marks_dirty {V : Type} {s s' : Midware V} {a : MidwareArg V}
    {t : Int} (h : Midware.use s a t = .ok s') :
    s'.isDirty = true ∧ s'.sortedMidwares = none := by
  cases a with
  | nonCallable =>
    simp [Midware.use, Midware.assertValidMidware, bind, Except.bind] at h
  | fn m =>
    simp only [Midware.use, Midware.assertValidMidware, Midware.maybeDupesAssert,
      bind, Except.bind, pure, Except.pure] at h
    split_ifs at h <;> simp only [Except.ok.injEq, reduceCtorEq] at h <;>
      subst h <;> exact ⟨rfl, rfl⟩

theorem unshift_ok_marks_dirty {V : Type} {s s' : Midware V} {a : MidwareArg V}
    {t : Int} (h : Midware.unshift s a t = .ok s') :
    s'.isDirty = true ∧ s'.sortedMidwares = none := by
  cases a with
  | nonCallable =>
    simp [Midware.unshift, Midware.assertValidMidware, bind, Except.bind] at h
  | fn m =>
    simp only [Midware.unshift, Midware.assertValidMidware, Midware.maybeDupesAssert,
      bind, Except.bind, pure, Except.pure] at h
    split_ifs at h <;> simp only [Except.ok.injEq, reduceCtorEq] at h <;>
      subst h <;> exact ⟨rfl, rfl⟩

theorem getExec_snd_inv {V : Type} {s : Midware V} (h : Midware.SortCacheInv s) :
    Midware.SortCacheInv (Midware.getExecutableMiddlewares s).2 := by
  unfold Midware.getExecutableMiddlewares
  split_ifs
  · exact h
  · exact h
  · intro _
    rfl

theorem applyOp_inv {V : Type} {s : Midware V} (op : Midware.Op V)
    (h : Midware.SortCacheInv s) : Midware.SortCacheInv (Midware.applyOp s op) := by
  cases op with
  | opUse a t =>
    show Midware.SortCacheInv (Midware.useCaught s a t)
    unfold Midware.useCaught
    cases huse : Midware.use s a t with
    | ok s' =>
      intro hd
      exact absurd hd (by simp [(use_ok_marks_dirty huse).1])
    | error e => exact h
  | opUnshift a t =>
    show Midware.SortCacheInv (Midware.unshiftCaught s a t)
    unfold Midware.unshiftCaught
    cases huse : Midware.unshift s a t with
    | ok s' =>
      intro hd
      exact absurd hd (by simp [(unshift_ok_marks_dirty huse).1])
    | error e => exact h
  | opRemove m =>
    show Midware.SortCacheInv (Midware.remove s m).2
    unfold Midware.remove
    cases hidx : s.midwares.findIdx? (fun x => x.ref == m.ref) with
    | some i => intro hd; cases hd
    | none => exact h
  | opClear =>
    intro hd
    cases hd
  | opExecute d =>
    exact getExec_snd_inv h

theorem reachable_sort_cache_inv {V : Type} {s : Midware V}
    (h : Midware.Reachable s) : Midware.SortCacheInv s := by
  induction h with
  | init opts => intro hd; cases hd
  | step s op _ ih => exact applyOp_inv op ih
  | setOptions s opts _ ih => intro hd; exact ih hd

/-- **C4**: the sort cache is never read while invalid.  Every registry
mutation — a successful `use` or `unshift`, a `remove` that removed, and
`clear` — sets the dirty flag and drops the cached array before the next
read; consequently, on every instance state reachable through the public
interface, the sorted view selected for a run equals a fresh stable priority
sort of the registry's current contents. -/
theorem sort_cache_never_stale {V : Type} :
    (∀ (s s' : Midware V) (a : MidwareArg V) (t : Int),
        Midware.use s a t = .ok s' →
        s'.isDirty = true ∧ s'.sortedMidwares = none) ∧
    (∀ (s s' : Midware V) (a : MidwareArg V) (t : Int),
        Midware.unshift s a t = .ok s' →
        s'.isDirty = true ∧ s'.sortedMidwares = none) ∧
    (∀ (s : Midware V) (m : MidwareFn V),
        (Midware.remove s m).1 = true →
        ((Midware.remove s m).2).isDirty = true ∧
        ((Midware.remove s m).2).sortedMidwares = none) ∧
    (∀ s : Midware V,
        (Midware.clear s).isDirty = true ∧
        (Midware.clear s).sortedMidwares = none) ∧
    (∀ s : Midware V, Midware.Reachable s →
        s.options.preExecuteSortEnabled = true →
        (Midware.getExecutableMiddlewares s).1 = sortMidwares s.midwares) := by
  refine ⟨fun s s' a t h => use_ok_marks_dirty h,
    fun s s' a t h => unshift_ok_marks_dirty h, ?_, fun s => ⟨rfl, rfl⟩, ?_⟩
  · intro s m h
    unfold Midware.remove at h ⊢
    cases hidx : s.midwares.findIdx? (fun x => x.ref == m.ref) with
    | some i => exact ⟨rfl, rfl⟩
    | none => rw [hidx] at h; cases h
  · intro s hreach hsort
    exact (sorted_execution_order s (reachable_sort_cache_inv hreach) hsort).1

/-- Concrete instantiation of `sort_cache_never_stale`: after a sorted run of
registration order `[C, B, A]` (references `2, 1, 0`, priorities `1, 2, 3`),
removing `B` invalidates the cached order and the next run executes `[C, A]`
(references `[2, 0]`). -/
theorem sort_cache_never_stale_witness :
    ((Midware.execute
        (Midware.applyOp (Midware.applyOp (Midware.applyOp (Midware.applyOp
          (Midware.applyOp
            (Midware.initState (V := Nat) { preExecuteSortEnabled := true })
            (.opUse (.fn { ref := 2, __midwarePreExecuteSortOrder := some 1 }) 0))
          (.opUse (.fn { ref := 1, __midwarePreExecuteSortOrder := some 2 }) 0))
          (.opUse (.fn { ref := 0, __midwarePreExecuteSortOrder := some 3 }) 0))
          (.opExecute 0))
          (.opRemove { ref := 1, __midwarePreExecuteSortOrder := some 2 }))
        0).2.1).map MidwareFn.ref = [2, 0] := by
  have hreach := Midware.Reachable.step _
    (.opRemove { ref := 1, __midwarePreExecuteSortOrder := some 2 })
    (Midware.Reachable.step _ (.opExecute 0)
      (Midware.Reachable.step _
        (.opUse (.fn { ref := 0, __midwarePreExecuteSortOrder := some 3 }) 0)
        (Midware.Reachable.step _
          (.opUse (.fn { ref := 1, __midwarePreExecuteSortOrder := some 2 }) 0)
          (Midware.Reachable.step _
            (.opUse (.fn { ref := 2, __midwarePreExecuteSortOrder := some 1 }) 0)
            (Midware.Reachable.init (V := Nat) { preExecuteSortEnabled := true })))))
  have h := sort_cache_never_stale.2.2.2.2 _ hreach (by decide)
  rw [show (Midware.execute
        (Midware.applyOp (Midware.applyOp (Midware.applyOp (Midware.applyOp
          (Midware.applyOp
            (Midware.initState (V := Nat) { preExecuteSortEnabled := true })
            (.opUse (.fn { ref := 2, __midwarePreExecuteSortOrder := some 1 }) 0))
          (.opUse (.fn { ref := 1, __midwarePreExecuteSortOrder := some 2 }) 0))
          (.opUse (.fn { ref := 0, __midwarePreExecuteSortOrder := some 3 }) 0))
          (.opExecute 0))
          (.opRemove { ref := 1, __midwarePreExecuteSortOrder := some 2 }))
        0).2.1 = (Midware.execLoop (Midware.getExecutableMiddlewares
          (Midware.applyOp (Midware.applyOp (Midware.applyOp (Midware.applyOp
            (Midware.applyOp
              (Midware.initState (V := Nat) { preExecuteSortEnabled := true })
              (.opUse (.fn { ref := 2, __midwarePreExecuteSortOrder := some 1 }) 0))
            (.opUse (.fn { ref := 1, __midwarePreExecuteSortOrder := some 2 }) 0))
            (.opUse (.fn { ref := 0, __midwarePreExecuteSortOrder := some 3 }) 0))
            (.opExecute 0))
            (.opRemove { ref := 1, __midwarePreExecuteSortOrder := some 2 }))).1).2
      from rfl, h]
  decide

/-! ## C7: duplicate rejection -/

/-- **C7**: with duplicate-rejection enabled and a step not marked
`__midwareDuplicable`, registering (without a per-step timeout) a reference
already present fails synchronously with the duplicate error — through both
`use` and `unshift` — leaving the instance unchanged; marking the reference
exempt, or disabling the option, lets the same reference be registered again
without failure. -/
theorem duplicate_rejection {V : Type} (s : Midware V) (m : MidwareFn V)
    (t : Int) :
    (s.options.duplicatesCheckEnabled = true → m.__midwareDuplicable = false →
      t ≤ 0 → m.ref ∈ s.midwares.map MidwareFn.ref →
        Midware.use s (.fn m) t = .error .duplicateStep ∧
        Midware.useCaught s (.fn m) t = s ∧
        Midware.unshift s (.fn m) t = .error .duplicateStep ∧
        Midware.unshiftCaught s (.fn m) t = s) ∧
    (m.__midwareDuplicable = true → t ≤ 0 →
        Midware.use s (.fn m) t =
          .ok (Midware.markDirty { s with midwares := s.midwares ++ [m] })) ∧
    (s.options.duplicatesCheckEnabled = false → t ≤ 0 →
        Midware.use s (.fn m) t =
          .ok (Midware.markDirty { s with midwares := s.midwares ++ [m] })) := by
  have hw : ∀ ht : t ≤ 0, Midware.maybeWithTimeout s.midwares m t = m := by
    intro ht
    unfold Midware.maybeWithTimeout
    rw [if_neg (by omega)]
  refine ⟨fun hdup hnd ht hmem => ?_, fun hd ht => ?_, fun hdis ht => ?_⟩
  · have hany : s.midwares.any (fun x => x.ref == m.ref) = true := by
      simp only [List.any_eq_true]
      simp only [List.mem_map] at hmem
      obtain ⟨x, hx, hxe⟩ := hmem
      exact ⟨x, hx, by simp [hxe]⟩
    have hassert : Midware.maybeDupesAssert s m = .error .duplicateStep := by
      unfold Midware.maybeDupesAssert
      rw [if_neg (by simp [hnd, hdup]), if_pos hany]
    have hu : Midware.use s (.fn m) t = .error .duplicateStep := by
      simp [Midware.use, Midware.assertValidMidware, hw ht, hassert,
        bind, Except.bind]
    have hun : Midware.unshift s (.fn m) t = .error .duplicateStep := by
      simp [Midware.unshift, Midware.assertValidMidware, hw ht, hassert,
        bind, Except.bind]
    exact ⟨hu, by unfold Midware.useCaught; rw [hu], hun,
      by unfold Midware.unshiftCaught; rw [hun]⟩
  · have hassert : Midware.maybeDupesAssert s m = .ok m := by
      unfold Midware.maybeDupesAssert
      rw [if_pos (by simp [hd])]
    simp [Midware.use, Midware.assertValidMidware, hw ht, hassert,
      bind, Except.bind, pure, Except.pure]
  · have hassert : Midware.maybeDupesAssert s m = .ok m := by
      unfold Midware.maybeDupesAssert
      rw [if_pos (by simp [hdis])]
    simp [Midware.use, Midware.assertValidMidware, hw ht, hassert,
      bind, Except.bind, pure, Except.pure]

/-- Concrete instantiation of `duplicate_rejection`: with the option enabled,
re-registering reference `9` fails with the duplicate error and leaves the
instance unchanged, while re-registering an exempt reference succeeds. -/
theorem duplicate_rejection_witness :
    Midware.use
        ({ midwares := [{ ref := 9 }],
           options := { duplicatesCheckEnabled := true } } : Midware Nat)
        (.fn { ref := 9 }) 0 = .error .duplicateStep ∧
    Midware.useCaught
        ({ midwares := [{ ref := 9 }],
           options := { duplicatesCheckEnabled := true } } : Midware Nat)
        (.fn { ref := 9 }) 0 =
      { midwares := [{ ref := 9 }],
        options := { duplicatesCheckEnabled := true } } ∧
    Midware.use
        ({ midwares := [{ ref := 9, __midwareDuplicable := true }],
           options := { duplicatesCheckEnabled := true } } : Midware Nat)
        (.fn { ref := 9, __midwareDuplicable := true }) 0 =
      .ok (Midware.markDirty
        { midwares := [{ ref := 9, __midwareDuplicable := true },
                       { ref := 9, __midwareDuplicable := true }],
          options := { duplicatesCheckEnabled := true } }) := by
  have h1 := (duplicate_rejection
    ({ midwares := [{ ref := 9 }],
       options := { duplicatesCheckEnabled := true } } : Midware Nat)
    { ref := 9 } 0).1 rfl rfl (by omega) (by decide)
  have h2 := (duplicate_rejection
    ({ midwares := [{ ref := 9, __midwareDuplicable := true }],
       options := { duplicatesCheckEnabled := true } } : Midware Nat)
    { ref := 9, __midwareDuplicable := true } 0).2.1 rfl (by omega)
  exact ⟨h1.1, h1.2.1, h2⟩

/-! ## C8: non-callable registration fails before any state is mutated -/

/-- **C8**: registering a non-callable value — via `use`, via `unshift`, or
as an element of the constructor's initial list — fails synchronously with
the `TypeError` before any state of that registration is mutated: the
instance (registry, cache, and dirty flag) is exactly as before the failing
call, so a subsequent run is unaffected by the attempt. -/
theorem invalid_step_rejection {V : Type} :
    (∀ (s : Midware V) (t : Int),
        Midware.use s .nonCallable t = .error .invalidStep ∧
        Midware.useCaught s .nonCallable t = s ∧
        Midware.unshift s .nonCallable t = .error .invalidStep ∧
        Midware.unshiftCaught s .nonCallable t = s ∧
        Midware.execute (Midware.useCaught s .nonCallable t) 0 =
          Midware.execute s 0) ∧
    (∀ (pre post : List (MidwareArg V)) (opts : MidwareOptions),
        (Midware.construct pre opts).isOk = true →
        Midware.construct (pre ++ .nonCallable :: post) opts =
          .error .invalidStep) := by
  constructor
  · intro s t
    exact ⟨rfl, rfl, rfl, rfl, rfl⟩
  · intro pre post opts hok
    unfold Midware.construct at hok ⊢
    rw [List.foldlM_append]
    cases hc : (pre.foldlM (fun s a => Midware.use s a 0) (Midware.initState opts))
      with
    | ok s0 => rfl
    | error e =>
      rw [hc] at hok
      simp [Except.isOk, Except.toBool] at hok

/-- Concrete instantiation of `invalid_step_rejection`: a constructor call
whose initial list holds a valid step followed by a non-callable fails with
the `TypeError`. -/
theorem invalid_step_rejection_witness :
    Midware.construct (V := Nat) [.fn { ref := 0 }, .nonCallable] {} =
      .error .invalidStep := by
  have h := (invalid_step_rejection (V := Nat)).2 [.fn { ref := 0 }] [] {}
    (by decide)
  simpa using h

/-! ## C6: removal by the original reference after a timeout wrap -/

theorem le_foldr_max (b : Nat) (l : List Nat) :
    b ≤ l.foldr max b ∧ ∀ x ∈ l, x ≤ l.foldr max b := by
  induction l with
  | nil => simp
  | cons y ys ih =>
    refine ⟨le_trans ih.1 (le_max_right y _), ?_⟩
    intro x hx
    rcases List.mem_cons.mp hx with hx | hx
    · subst hx
      exact le_max_left x _
    · exact le_trans (ih.2 x hx) (le_max_right y _)

theorem freshRef_fresh {V : Type} (m : MidwareFn V) (l : List (MidwareFn V)) :
    m.ref < Midware.freshRef m l ∧
      ∀ x ∈ l, x.ref < Midware.freshRef m l := by
  unfold Midware.freshRef
  constructor
  · exact Nat.lt_succ_of_le (le_foldr_max m.ref (l.map MidwareFn.ref)).1
  · intro x hx
    exact Nat.lt_succ_of_le ((le_foldr_max m.ref (l.map MidwareFn.ref)).2 x.ref
      (List.mem_map_of_mem MidwareFn.ref hx))

/-- The claim "registering with a positive per-step timeout makes removal by
the original reference return `false` and leave the registry unchanged" is
false as universally stated: if the original reference is *also* present in
the registry (here `ref 5`, first registered without a timeout, then with
timeout `3`), `remove` by the original finds that first identical entry,
removes it, and returns `true`. -/
theorem remove_after_timeout_counterexample :
    (Midware.remove
        (Midware.useCaught
          (Midware.useCaught (Midware.initState (V := Nat) {})
            (.fn { ref := 5 }) 0)
          (.fn { ref := 5 }) 3)
        { ref := 5 }).1 = true ∧
    (Midware.remove
        (Midware.useCaught
          (Midware.useCaught (Midware.initState (V := Nat) {})
            (.fn { ref := 5 }) 0)
          (.fn { ref := 5 }) 3)
        { ref := 5 }).2 ≠
      Midware.useCaught
        (Midware.useCaught (Midware.initState (V := Nat) {})
          (.fn { ref := 5 }) 0)
        (.fn { ref := 5 }) 3 := by
  decide

/-- **C6 (amended)**: registering a step via `use` or `unshift` with a
positive per-step timeout stores a freshly allocated wrapper function, not
the original; provided the original reference is not otherwise present in
the registry, a subsequent `remove` with the original reference compares by
reference, finds nothing, returns `false`, and leaves the registry
unchanged. -/
theorem remove_by_original_after_timeout {V : Type} (s : Midware V)
    (f : MidwareFn V) (t : Int) (ht : 0 < t)
    (hnot : f.ref ∉ s.midwares.map MidwareFn.ref) :
    ∃ w : MidwareFn V,
      Midware.use s (.fn f) t =
        .ok (Midware.markDirty { s with midwares := s.midwares ++ [w] }) ∧
      w.ref ≠ f.ref ∧
      Midware.remove (Midware.useCaught s (.fn f) t) f =
        (false, Midware.useCaught s (.fn f) t) ∧
      Midware.unshift s (.fn f) t =
        .ok (Midware.markDirty { s with midwares := w :: s.midwares }) ∧
      Midware.remove (Midware.unshiftCaught s (.fn f) t) f =
        (false, Midware.unshiftCaught s (.fn f) t) := by
  set w : MidwareFn V := Midware.maybeWithTimeout s.midwares f t with hw
  have hwdef : w =
      { ref := Midware.freshRef f s.midwares
        __midwarePreExecuteSortOrder := none
        __midwareDuplicable := false
        run := f.run
        dur := f.dur } := by
    rw [hw]
    unfold Midware.maybeWithTimeout
    rw [if_pos ht]
  have hfresh := freshRef_fresh f s.midwares
  have hwref : w.ref = Midware.freshRef f s.midwares := by rw [hwdef]
  have hwne : w.ref ≠ f.ref := by
    rw [hwref]
    omega
  have hany : s.midwares.any (fun x => x.ref == w.ref) = false := by
    rw [List.any_eq_false]
    intro x hx
    have := hfresh.2 x hx
    simp only [beq_iff_eq]
    omega
  have hassert : Midware.maybeDupesAssert s w = .ok w := by
    unfold Midware.maybeDupesAssert
    split_ifs with h1 h2
    · rfl
    · rw [hany] at h2
      cases h2
    · rfl
  have huse : Midware.use s (.fn f) t =
      .ok (Midware.markDirty { s with midwares := s.midwares ++ [w] }) := by
    simp [Midware.use, Midware.assertValidMidware, ← hw, hassert,
      bind, Except.bind, pure, Except.pure]
  have hunshift : Midware.unshift s (.fn f) t =
      .ok (Midware.markDirty { s with midwares := w :: s.midwares }) := by
    simp [Midware.unshift, Midware.assertValidMidware, ← hw, hassert,
      bind, Except.bind, pure, Except.pure]
  have hnone : ∀ x ∈ s.midwares, ¬(x.ref == f.ref) = true := by
    intro x hx hxe
    exact hnot (List.mem_map.mpr ⟨x, hx, by simpa using hxe⟩)
  refine ⟨w, huse, hwne, ?_, hunshift, ?_⟩
  · have hcaught : Midware.useCaught s (.fn f) t =
        Midware.markDirty { s with midwares := s.midwares ++ [w] } := by
      unfold Midware.useCaught
      rw [huse]
    rw [hcaught]
    unfold Midware.remove
    rw [List.findIdx?_eq_none_iff.mpr ?_]
    intro x hx
    simp only [Midware.markDirty, List.mem_append, List.mem_singleton] at hx
    rcases hx with hx | hx
    · simpa using hnone x hx
    · subst hx
      simp only [beq_eq_false_iff_ne, ne_eq]
      exact hwne
  · have hcaught : Midware.unshiftCaught s (.fn f) t =
        Midware.markDirty { s with midwares := w :: s.midwares } := by
      unfold Midware.unshiftCaught
      rw [hunshift]
    rw [hcaught]
    unfold Midware.remove
    rw [List.findIdx?_eq_none_iff.mpr ?_]
    intro x hx
    simp only [Midware.markDirty, List.mem_cons] at hx
    rcases hx with hx | hx
    · subst hx
      simp only [beq_eq_false_iff_ne, ne_eq]
      exact hwne
    · simpa using hnone x hx

/-- Concrete instantiation of `remove_by_original_after_timeout`: on an empty
registry, registering reference `5` with timeout `3` and then removing by the
original reference returns `false`. -/
theorem remove_by_original_after_timeout_witness :
    (Midware.remove
        (Midware.useCaught (Midware.initState (V := Nat) {})
          (.fn { ref := 5 }) 3)
        { ref := 5 }).1 = false := by
  obtain ⟨w, h1, h2, h3, h4, h5⟩ := remove_by_original_after_timeout
    (Midware.initState (V := Nat) {}) { ref := 5 } 3 (by omega) (by decide)
  rw [h3]

/-! ## C2: what an in-flight run observes under registry mutation -/

theorem arr_set_ne {V : Type} (h : List (List (MidwareFn V))) (i j : Nat)
    (x : List (MidwareFn V)) (hne : j ≠ i) :
    (h.set i x).getD j [] = h.getD j [] := by
  simp only [List.getD_eq_getElem?_getD]
  rw [List.getElem?_set_ne (fun he => hne he.symm)]

theorem arr_append_left {V : Type} (h : List (List (MidwareFn V)))
    (x : List (MidwareFn V)) (j : Nat) (hj : j < h.length) :
    (h ++ [x]).getD j [] = h.getD j [] := by
  simp only [List.getD_eq_getElem?_getD]
  rw [List.getElem?_append_left hj]

theorem applyMut_arr_eq {V : Type} (s : HeapModel.Sys V) (r : HeapModel.RunSt V)
    (op : HeapModel.MutOp V) (hwf : HeapModel.WFrun s r) :
    HeapModel.arr (HeapModel.applyMut s op) r.arrId = HeapModel.arr s r.arrId := by
  obtain ⟨hlt, hne⟩ := hwf
  cases op with
  | useM m t =>
    show HeapModel.arr (HeapModel.useMut s m t) r.arrId = _
    unfold HeapModel.useMut
    split_ifs
    · rfl
    · exact arr_set_ne s.heap s.regId r.arrId _ hne
  | unshiftM m t =>
    show HeapModel.arr (HeapModel.unshiftMut s m t) r.arrId = _
    unfold HeapModel.unshiftMut
    split_ifs
    · rfl
    · exact arr_set_ne s.heap s.regId r.arrId _ hne
  | removeM m =>
    show HeapModel.arr (HeapModel.removeMut s m) r.arrId = _
    unfold HeapModel.removeMut
    cases (HeapModel.regArr s).findIdx? (fun x => x.ref == m.ref) with
    | some i => exact arr_set_ne s.heap s.regId r.arrId _ hne
    | none => rfl
  | clearM =>
    show HeapModel.arr (HeapModel.clearMut s) r.arrId = _
    exact arr_append_left s.heap [] r.arrId hlt

theorem applyMut_wfrun {V : Type} (s : HeapModel.Sys V) (r : HeapModel.RunSt V)
    (op : HeapModel.MutOp V) (hwf : HeapModel.WFrun s r) :
    HeapModel.WFrun (HeapModel.applyMut s op) r := by
  obtain ⟨hlt, hne⟩ := hwf
  cases op with
  | useM m t =>
    show HeapModel.WFrun (HeapModel.useMut s m t) r
    unfold HeapModel.useMut
    split_ifs
    · exact ⟨hlt, hne⟩
    · exact ⟨by simpa [HeapModel.dirty] using hlt, hne⟩
  | unshiftM m t =>
    show HeapModel.WFrun (HeapModel.unshiftMut s m t) r
    unfold HeapModel.unshiftMut
    split_ifs
    · exact ⟨hlt, hne⟩
    · exact ⟨by simpa [HeapModel.dirty] using hlt, hne⟩
  | removeM m =>
    show HeapModel.WFrun (HeapModel.removeMut s m) r
    unfold HeapModel.removeMut
    cases (HeapModel.regArr s).findIdx? (fun x => x.ref == m.ref) with
    | some i => exact ⟨by simpa [HeapModel.dirty] using hlt, hne⟩
    | none => exact ⟨hlt, hne⟩
  | clearM =>
    refine ⟨?_, ?_⟩
    · show r.arrId < (s.heap ++ [[]]).length
      simp only [List.length_append, List.length_singleton]
      omega
    · show r.arrId ≠ s.heap.length
      omega

theorem runStep_congr {V : Type} (s s' : HeapModel.Sys V) (r : HeapModel.RunSt V)
    (ha : HeapModel.arr s r.arrId = HeapModel.arr s' r.arrId) :
    HeapModel.runStep s r = HeapModel.runStep s' r := by
  unfold HeapModel.runStep
  rw [ha]

theorem runStep_arrId {V : Type} (s : HeapModel.Sys V) (r : HeapModel.RunSt V) :
    (HeapModel.runStep s r).arrId = r.arrId := by
  unfold HeapModel.runStep
  split_ifs
  · rfl
  · split
    · rfl
    · split
      · rfl
      · rfl

theorem runSched_mut_erasure {V : Type} :
    ∀ (sched : List (HeapModel.SchedItem V)) (s s' : HeapModel.Sys V)
      (r : HeapModel.RunSt V),
      HeapModel.arr s r.arrId = HeapModel.arr s' r.arrId →
      HeapModel.WFrun s r →
      (HeapModel.runSched sched s r).2 =
        (HeapModel.runSched (sched.filter HeapModel.SchedItem.isStep) s' r).2
  | [], s, s', r, ha, hwf => rfl
  | .mut op :: rest, s, s', r, ha, hwf => by
    show (HeapModel.runSched rest (HeapModel.applyMut s op) r).2 = _
    have hfilter : (HeapModel.SchedItem.mut op :: rest).filter
        HeapModel.SchedItem.isStep = rest.filter HeapModel.SchedItem.isStep := by
      simp [List.filter, HeapModel.SchedItem.isStep]
    rw [hfilter]
    exact runSched_mut_erasure rest (HeapModel.applyMut s op) s' r
      ((applyMut_arr_eq s r op hwf).trans ha) (applyMut_wfrun s r op hwf)
  | .step :: rest, s, s', r, ha, hwf => by
    have hfilter : (HeapModel.SchedItem.step :: rest).filter
        HeapModel.SchedItem.isStep =
        .step :: rest.filter HeapModel.SchedItem.isStep := by
      simp [List.filter, HeapModel.SchedItem.isStep]
    rw [hfilter]
    show (HeapModel.runSched rest s (HeapModel.runStep s r)).2 =
      (HeapModel.runSched (rest.filter HeapModel.SchedItem.isStep) s'
        (HeapModel.runStep s' r)).2
    rw [← runStep_congr s s' r ha]
    exact runSched_mut_erasure rest s s' (HeapModel.runStep s r)
      (by rw [runStep_arrId]; exact ha)
      (by
        obtain ⟨hlt, hne⟩ := hwf
        exact ⟨by rw [runStep_arrId]; exact hlt, by rw [runStep_arrId]; exact hne⟩)

theorem startRun_wfrun {V : Type} (s : HeapModel.Sys V) (hwf : HeapModel.WF s)
    (hsort : s.options.preExecuteSortEnabled = true) :
    HeapModel.WFrun (HeapModel.startRun s).2 (HeapModel.startRun s).1 := by
  obtain ⟨hreg, hcache⟩ := hwf
  unfold HeapModel.startRun HeapModel.getExecId
  split_ifs with h1 h2
  · simp [hsort] at h1
  · cases hs : s.sortedId with
    | none => rw [hs] at h2; simp at h2
    | some i =>
      obtain ⟨hi1, hi2⟩ := hcache i hs
      exact ⟨by simp [hs, hi1], by simp [hs, hi2]⟩
  · refine ⟨?_, ?_⟩
    · show s.heap.length < (s.heap ++ [_]).length
      simp
    · show s.heap.length ≠ s.regId
      omega

/-- The claim "registry mutations performed while a run is in flight never
change which steps the run invokes" is false as stated: with priority sorting
disabled, `#getExecutableMiddlewares` returns the live `#midwares` array
itself, which the run's `for ... of` loop iterates.  Concretely: the registry
holds one step (reference `0`) when the run starts, a `use` of reference `1`
lands between loop iterations, and the run then invokes step `1` as well —
`[0, 1]` instead of the selected `[0]`. -/
theorem run_mutation_visible_counterexample :
    (HeapModel.arr
        (HeapModel.startRun
          ({ heap := [[{ ref := 0 }]], regId := 0 } : HeapModel.Sys Nat)).2
        (HeapModel.startRun
          ({ heap := [[{ ref := 0 }]], regId := 0 } : HeapModel.Sys Nat)).1.arrId).map
      MidwareFn.ref = [0] ∧
    ((HeapModel.runSched
        [.step, .mut (.useM { ref := 1 } 0), .step, .step]
        (HeapModel.startRun
          ({ heap := [[{ ref := 0 }]], regId := 0 } : HeapModel.Sys Nat)).2
        (HeapModel.startRun
          ({ heap := [[{ ref := 0 }]], regId := 0 } : HeapModel.Sys Nat)).1).2).invoked
      = [0, 1] := by
  decide

/-- **C2 (amended)**: the step sequence of a run is selected exactly once at
the start of the run; when priority sorting is enabled the selected array is
a private sorted copy, so registry mutations (`use`/`unshift`/`remove`/
`clear`) interleaved with the run never change which steps the run invokes or
their order — erasing all mutations from the interleaving leaves the run
state (invoked steps and settled outcome) unchanged.  (With sorting disabled
the run iterates the live registry array and in-place mutations can affect
it, as the counterexample shows.) -/
theorem run_selected_once_when_sorted {V : Type} (s : HeapModel.Sys V)
    (hwf : HeapModel.WF s)
    (hsort : s.options.preExecuteSortEnabled = true)
    (sched : List (HeapModel.SchedItem V)) :
    (HeapModel.runSched sched
        (HeapModel.startRun s).2 (HeapModel.startRun s).1).2 =
      (HeapModel.runSched (sched.filter HeapModel.SchedItem.isStep)
        (HeapModel.startRun s).2 (HeapModel.startRun s).1).2 :=
  runSched_mut_erasure sched _ _ _ rfl (startRun_wfrun s hwf hsort)

/-- Concrete instantiation of `run_selected_once_when_sorted`: the same
mid-run `use` of reference `1` as in the counterexample, but with sorting
enabled — the run still invokes exactly the selected `[0]`. -/
theorem run_selected_once_when_sorted_witness :
    ((HeapModel.runSched
        [.step, .mut (.useM { ref := 1 } 0), .step, .step]
        (HeapModel.startRun
          ({ heap := [[{ ref := 0 }]], regId := 0,
             options := { preExecuteSortEnabled := true } }
            : HeapModel.Sys Nat)).2
        (HeapModel.startRun
          ({ heap := [[{ ref := 0 }]], regId := 0,
             options := { preExecuteSortEnabled := true } }
            : HeapModel.Sys Nat)).1).2).invoked = [0] := by
  rw [run_selected_once_when_sorted
    ({ heap := [[{ ref := 0 }]], regId := 0,
       options := { preExecuteSortEnabled := true } } : HeapModel.Sys Nat)
    ⟨by decide, fun i hi => nomatch hi⟩ rfl
    [.step, .mut (.useM { ref := 1 } 0), .step, .step]]
  decide

/-! ## C10: the options record is merged into a fresh object and re-read -/

theorem optHeap_getD_set_ne (d : OptionsObject.OptRec)
    (h : List OptionsObject.OptRec) (i j : Nat) (x : OptionsObject.OptRec)
    (hne : j ≠ i) : (h.set i x).getD j d = h.getD j d := by
  simp only [List.getD_eq_getElem?_getD]
  rw [List.getElem?_set_ne (fun he => hne he.symm)]

/-- **C10**: the caller's options record is merged, field by field over the
defaults, into a fresh object owned by the instance: the instance's options
id differs from the caller's, the instance initially reads exactly the merged
flags, mutating the caller's record after construction never changes the
flags the instance reads (so registration and run behaviour are unchanged,
since both re-read the flags at each call), while assigning the instance's
own `options` field does take effect on the very next read. -/
theorem options_merged_fresh {V : Type} (h : List OptionsObject.OptRec)
    (cid : Nat) (hc : cid < h.length) :
    (OptionsObject.constructOptions h cid).2 ≠ cid ∧
    OptionsObject.readFlags (OptionsObject.constructOptions h cid).1
        (OptionsObject.constructOptions h cid).2 =
      { preExecuteSortEnabled := (h.getD cid {}).preExecuteSortEnabled.getD false
        duplicatesCheckEnabled :=
          (h.getD cid {}).duplicatesCheckEnabled.getD false } ∧
    (∀ newRec : OptionsObject.OptRec,
      OptionsObject.readFlags
          ((OptionsObject.constructOptions h cid).1.set cid newRec)
          (OptionsObject.constructOptions h cid).2 =
        OptionsObject.readFlags (OptionsObject.constructOptions h cid).1
          (OptionsObject.constructOptions h cid).2) ∧
    (∀ rec : OptionsObject.OptRec,
      OptionsObject.readFlags
          ((OptionsObject.constructOptions h cid).1.set
            (OptionsObject.constructOptions h cid).2 rec)
          (OptionsObject.constructOptions h cid).2 =
        { preExecuteSortEnabled := rec.preExecuteSortEnabled.getD false
          duplicatesCheckEnabled := rec.duplicatesCheckEnabled.getD false }) ∧
    (∀ (s : Midware V) (a : MidwareArg V) (t : Int)
        (newRec : OptionsObject.OptRec),
      Midware.use { s with options := (OptionsObject.readFlags
          ((OptionsObject.constructOptions h cid).1.set cid newRec)
          (OptionsObject.constructOptions h cid).2) } a t =
        Midware.use { s with options := (OptionsObject.readFlags
          (OptionsObject.constructOptions h cid).1
          (OptionsObject.constructOptions h cid).2) } a t) := by
  have hoid : (OptionsObject.constructOptions h cid).2 = h.length := rfl
  have hread : OptionsObject.readFlags (OptionsObject.constructOptions h cid).1
      (OptionsObject.constructOptions h cid).2 =
      { preExecuteSortEnabled := (h.getD cid {}).preExecuteSortEnabled.getD false
        duplicatesCheckEnabled :=
          (h.getD cid {}).duplicatesCheckEnabled.getD false } := by
    unfold OptionsObject.readFlags OptionsObject.constructOptions
      OptionsObject.merge
    simp only [List.getD_eq_getElem?_getD, List.getElem?_concat_length,
      Option.getD_some]
  have hsetc : ∀ newRec : OptionsObject.OptRec,
      OptionsObject.readFlags
          ((OptionsObject.constructOptions h cid).1.set cid newRec)
          (OptionsObject.constructOptions h cid).2 =
        OptionsObject.readFlags (OptionsObject.constructOptions h cid).1
          (OptionsObject.constructOptions h cid).2 := by
    intro newRec
    unfold OptionsObject.readFlags
    rw [hoid, optHeap_getD_set_ne _ _ _ _ _ (by omega)]
  refine ⟨by rw [hoid]; omega, hread, hsetc, ?_, ?_⟩
  · intro rec
    unfold OptionsObject.readFlags
    rw [hoid]
    have hlen : h.length < ((OptionsObject.constructOptions h cid).1).length := by
      show h.length < (h ++ [_]).length
      simp
    simp only [List.getD_eq_getElem?_getD]
    rw [List.getElem?_set_self hlen]
    rfl
  · intro s a t newRec
    rw [hsetc newRec]

/-- Concrete instantiation of `options_merged_fresh`: an instance constructed
from a caller record enabling duplicate checks still reads the flag as
enabled after the caller's record is mutated, while assigning the instance's
own field to a record disabling it takes effect. -/
theorem options_merged_fresh_witness :
    OptionsObject.readFlags
        ((OptionsObject.constructOptions
          [{ duplicatesCheckEnabled := some true }] 0).1.set 0
            { duplicatesCheckEnabled := some false })
        (OptionsObject.constructOptions
          [{ duplicatesCheckEnabled := some true }] 0).2 =
      { duplicatesCheckEnabled := true } ∧
    OptionsObject.readFlags
        ((OptionsObject.constructOptions
          [{ duplicatesCheckEnabled := some true }] 0).1.set
          (OptionsObject.constructOptions
            [{ duplicatesCheckEnabled := some true }] 0).2
          { duplicatesCheckEnabled := some false })
        (OptionsObject.constructOptions
          [{ duplicatesCheckEnabled := some true }] 0).2 = {} := by
  have h := options_merged_fresh (V := Nat)
    [{ duplicatesCheckEnabled := some true }] 0 (by decide)
  constructor
  · rw [h.2.2.1 { duplicatesCheckEnabled := some false }]
    decide
  · rw [h.2.2.2.1 { duplicatesCheckEnabled := some false }]
    decide
